import Mathlib

/-
Verification of the `optional-neo` library: an `Optional<T>` container with two
variants (`Some` holding one value, `Empty` holding nothing), constructors
(`some`, `empty`, `fromNullable`) and combinators (`group`, `instanceOfOptional`).

Modelling choices, shared by all definitions below:

* JavaScript runtime values that the library inspects (`===`, `typeof`,
  the `in` operator) are modelled by `JSVal`.  Object identity is an explicit
  `ref` field; `===` on objects compares references, on primitives it compares
  values.  Numbers are modelled as integers (no claim involves NaN or -0).
* Every `Optional` instance is an object with identity, modelled by `OptObj`:
  an allocation id `oid` plus the variant (`data = some v` for a `Some`
  instance, `data = none` for an `Empty` instance).  Operations of the source
  that allocate (`new Some(...)`, `new Empty()`) take the fresh allocation id
  as an extra parameter; "returns `this`" is returning the receiver structure
  unchanged (same `oid`).  The shared constant `empty` is the object with id 0.
* Instrumented variants (suffix `T`) additionally return the list of values on
  which a caller-supplied callback was invoked and the list of object ids
  allocated, so that "the callback is never invoked" and "no new Optional is
  allocated" are stated as the logs being empty.
* Exception behaviour (suffix `E`) is modelled by callbacks returning
  `Except ε`; the abstraction's own logic is total.
-/

namespace OptionalNeo

/-- Model of the JavaScript values the library inspects: the two null-like
sentinels, primitives, and heap objects. An object carries its heap reference,
the list of member names it exposes (own or inherited, as tested by `in`),
and whether it is callable (a function). -/
inductive JSVal where
  | jnull
  | jundef
  | jbool (b : Bool)
  | jnum (n : Int)
  | jbigint (n : Int)
  | jstr (s : String)
  | jsym (sid : Nat)
  | jobj (ref : Nat) (fields : List String) (callable : Bool)
deriving DecidableEq

/-- JavaScript `typeof` on the modelled values: `typeof null` is `"object"`,
functions answer `"function"`, non-callable objects answer `"object"`. -/
def jsTypeof : JSVal → String
  | .jnull => "object"
  | .jundef => "undefined"
  | .jbool _ => "boolean"
  | .jnum _ => "number"
  | .jbigint _ => "bigint"
  | .jstr _ => "string"
  | .jsym _ => "symbol"
  | .jobj _ _ c => if c then "function" else "object"

/-- JavaScript strict equality `===`: value equality on primitives of the same
type, reference equality on objects, identity on symbols. -/
def jsStrictEq : JSVal → JSVal → Bool
  | .jnull, .jnull => true
  | .jundef, .jundef => true
  | .jbool a, .jbool b => a == b
  | .jnum a, .jnum b => a == b
  | .jbigint a, .jbigint b => a == b
  | .jstr a, .jstr b => a == b
  | .jsym a, .jsym b => a == b
  | .jobj r _ _, .jobj t _ _ => r == t
  | _, _ => false

/-- JavaScript `field in object`: membership of the name among the object's
exposed members; false on every non-object. -/
def jsHasField (v : JSVal) (f : String) : Bool :=
  match v with
  | .jobj _ fields _ => fields.contains f
  | _ => false

/-- An `Optional` instance: the object id `oid` models reference identity
(two instances are the same object exactly when their ids are equal), and
`data` is the variant: `some v` for a `Some` instance holding `v`, `none` for
an `Empty` instance. -/
structure OptObj (α : Type) where
  oid : Nat
  data : Option α
deriving DecidableEq

variable {α β : Type} {ε : Type}

/-- Source `isPresent`: `Some.isPresent` returns `true`, `Empty.isPresent`
returns `false`. -/
def OptObj.isPresent (o : OptObj α) : Bool :=
  match o.data with
  | some _ => true
  | none => false

/-- Source `isEmpty`: `Some.isEmpty` returns `false`, `Empty.isEmpty`
returns `true`. -/
def OptObj.isEmpty (o : OptObj α) : Bool :=
  match o.data with
  | some _ => false
  | none => true

/-- Source `getOrNull`: the value if present, otherwise the null sentinel
(modelled by `Option.none`). -/
def OptObj.getOrNull (o : OptObj α) : Option α :=
  match o.data with
  | some v => some v
  | none => none

/-- Source `getOrUndefined`: the value if present, otherwise the undefined
sentinel (modelled by `Option.none`). -/
def OptObj.getOrUndefined (o : OptObj α) : Option α :=
  match o.data with
  | some v => some v
  | none => none

/-- Source `getOrElse`: the value if present, otherwise the supplied default. -/
def OptObj.getOrElse (o : OptObj α) (defaultValue : α) : α :=
  match o.data with
  | some v => v
  | none => defaultValue

/-- Instrumented `map`. Source: `Some.map` is `new Some(func(this.value))`
(callback invoked on the value, a new `Some` with the fresh id allocated);
`Empty.map` is `return this` (no invocation, no allocation, same object id).
Besides the resulting Optional it returns the list of values the callback was
invoked on and the list of ids allocated. -/
def OptObj.mapT (o : OptObj α) (func : α → β) (fid : Nat) :
    OptObj β × List α × List Nat :=
  match o.data with
  | some v => (⟨fid, some (func v)⟩, [v], [fid])
  | none => (⟨o.oid, none⟩, [], [])

/-- Source `map`: the resulting Optional of `mapT`. -/
def OptObj.map (o : OptObj α) (func : α → β) (fid : Nat) : OptObj β :=
  (o.mapT func fid).1

/-- Instrumented `chain`. Source: `Some.chain` is `func(this.value)` (the
callback's result returned directly, nothing allocated by `chain` itself);
`Empty.chain` is `return this`. -/
def OptObj.chainT (o : OptObj α) (func : α → OptObj β) :
    OptObj β × List α × List Nat :=
  match o.data with
  | some v => (func v, [v], [])
  | none => (⟨o.oid, none⟩, [], [])

/-- Source `chain`: the resulting Optional of `chainT`. -/
def OptObj.chain (o : OptObj α) (func : α → OptObj β) : OptObj β :=
  (o.chainT func).1

/-- Instrumented `filter`. Source: `Some.filter` is
`func(this.value) ? this : new Empty()` (predicate invoked once; a fresh
`Empty` with id `fid` allocated only when the predicate rejects);
`Empty.filter` is `return this` (predicate never invoked). -/
def OptObj.filterT (o : OptObj α) (func : α → Bool) (fid : Nat) :
    OptObj α × List α × List Nat :=
  match o.data with
  | some v => (if func v then o else ⟨fid, none⟩, [v], if func v then [] else [fid])
  | none => (o, [], [])

/-- Source `filter`: the resulting Optional of `filterT`. -/
def OptObj.filter (o : OptObj α) (func : α → Bool) (fid : Nat) : OptObj α :=
  (o.filterT func fid).1

/-- Source `backUp`: `Some.backUp` is `return this` (the argument never
inspected), `Empty.backUp` is `return another`. -/
def OptObj.backUp (o : OptObj α) (another : OptObj α) : OptObj α :=
  match o.data with
  | some _ => o
  | none => another

/-- Source `isEqual` over JS values.  `Some.isEqual` is
`another.map(w => compareFunc ? compareFunc(v, w) : v === w).getOrElse(false)`;
`Empty.isEqual` is `another.isEmpty()`.  `fid` is the id of the boolean
Optional allocated by the inner `map` (immediately consumed). -/
def OptObj.isEqual (o another : OptObj JSVal)
    (compareFunc : Option (JSVal → JSVal → Bool)) (fid : Nat) : Bool :=
  match o.data with
  | some v =>
      (another.map
        (fun w =>
          match compareFunc with
          | some c => c v w
          | none => jsStrictEq v w) fid).getOrElse false
  | none => another.isEmpty

/-- Source constant `empty`: the process-wide shared `Empty` instance, given
object id 0. -/
def emptyOpt : OptObj α := ⟨0, none⟩

/-- Source `some`: `new Some(value)`, unconditionally wrapping the value;
`fid` is the id of the freshly allocated object. -/
def someOpt (fid : Nat) (value : α) : OptObj α := ⟨fid, some value⟩

/-- Source `fromNullable`:
`value === null || value === undefined ? empty : some(value)`. -/
def fromNullable (value : JSVal) (fid : Nat) : OptObj JSVal :=
  if jsStrictEq value .jnull || jsStrictEq value .jundef then emptyOpt
  else someOpt fid value

/-- JavaScript property assignment `Object.assign(record, { [k]: v })` on the
record's contents: an existing key is overwritten in place (keeping its
position), a new key is appended in insertion order. -/
def setKey (r : List (String × JSVal)) (k : String) (v : JSVal) :
    List (String × JSVal) :=
  match r with
  | [] => [(k, v)]
  | (k1, v1) :: rest => if k1 = k then (k, v) :: rest else (k1, v1) :: setKey rest k v

/-- State of `group`'s reduce: `acc` is the accumulator Optional (its payload
being the contents of the single shared mutable record `initial`), and `log`
records every assignment `Object.assign(complete, { [key]: value })` performed
onto that shared record, in order. -/
structure GroupState where
  acc : Option (List (String × JSVal))
  log : List (String × JSVal)
deriving DecidableEq

/-- One step of `group`'s reduce over a key. Source:
`acc.chain((complete) => optionalValue.map((value) => Object.assign(complete, { [key]: value })))`
with the variant dispatch inlined: `Empty.chain` returns `this` (callback not
invoked, nothing assigned); `Some.chain` invokes the callback with the record;
`Empty.map` returns `this` (so the step yields Empty with no assignment);
`Some.map` performs the `Object.assign` onto the shared record (logged) and
wraps the result. -/
def groupStep (s : GroupState) (kv : String × OptObj JSVal) : GroupState :=
  match s.acc with
  | none => s
  | some complete =>
      match kv.2.data with
      | none => { acc := none, log := s.log }
      | some v => { acc := some (setKey complete kv.1 v), log := s.log ++ [(kv.1, v)] }

/-- Source `group`: `Object.keys(partial).reduce(..., some(initial))` where
`initial` is a freshly created empty record; the mapping is modelled as its
key-ordered list of entries. -/
def group (fields : List (String × OptObj JSVal)) : GroupState :=
  fields.foldl groupStep { acc := some [], log := [] }

/-- The twelve member names probed by `instanceOfOptional`, in source order. -/
def optionalFields : List String :=
  ["map", "chain", "filter", "getOrNull", "getOrUndefined", "getOrElse",
   "isPresent", "isEmpty", "isEqual", "ifAbsent", "ifPresent", "backUp"]

/-- Source `instanceOfOptional`: returns `false` when
`typeof object !== "object"`, then when `object === null || object === undefined`,
then when some probed member name is not `in` the object; otherwise `true`. -/
def instanceOfOptional (object : JSVal) : Bool :=
  if jsTypeof object ≠ "object" then false
  else if jsStrictEq object .jnull || jsStrictEq object .jundef then false
  else optionalFields.all (fun field => jsHasField object field)

/-- Exception-aware `map`: the callback may throw (`Except ε`).  Source
`Some.map` evaluates `func(this.value)` and wraps the result in a new `Some`;
a throw inside the callback propagates unchanged, the operation itself adds
no failure of its own. `Empty.map` never invokes the callback. -/
def OptObj.mapE (o : OptObj α) (func : α → Except ε β) (fid : Nat) :
    Except ε (OptObj β) :=
  match o.data with
  | some v => (func v).map (fun r => ⟨fid, some r⟩)
  | none => .ok ⟨o.oid, none⟩

/-- Exception-aware `chain`: `Some.chain` returns `func(this.value)` directly,
so a throw in the callback propagates unchanged; `Empty.chain` never invokes
the callback. -/
def OptObj.chainE (o : OptObj α) (func : α → Except ε (OptObj β)) :
    Except ε (OptObj β) :=
  match o.data with
  | some v => func v
  | none => .ok ⟨o.oid, none⟩

/-- Exception-aware `filter`: the predicate may throw; on `Some` its result
decides between `this` and a fresh `Empty`, on `Empty` it is never invoked. -/
def OptObj.filterE (o : OptObj α) (func : α → Except ε Bool) (fid : Nat) :
    Except ε (OptObj α) :=
  match o.data with
  | some v => (func v).map (fun b => if b then o else ⟨fid, none⟩)
  | none => .ok o

/-- Exception-aware `ifPresent`: `Some.ifPresent` invokes the consumer with
the value (throws propagate), `Empty.ifPresent` does nothing. -/
def OptObj.ifPresentE (o : OptObj α) (func : α → Except ε Unit) : Except ε Unit :=
  match o.data with
  | some v => func v
  | none => .ok ()

/-- Exception-aware `ifAbsent`: `Empty.ifAbsent` invokes the function (throws
propagate), `Some.ifAbsent` does nothing. -/
def OptObj.ifAbsentE (o : OptObj α) (func : Unit → Except ε Unit) : Except ε Unit :=
  match o.data with
  | some _ => .ok ()
  | none => func ()

/-- Exception-aware `isEqual`: the comparator may throw.  `Some.isEqual`
delegates through `another.map(...)` whose callback runs the comparator, so a
throw propagates; with no comparator the default `===` comparison cannot
throw; `Empty.isEqual` runs no callback at all. -/
def OptObj.isEqualE (o another : OptObj JSVal)
    (compareFunc : Option (JSVal → JSVal → Except ε Bool)) (fid : Nat) :
    Except ε Bool :=
  match o.data with
  | some v =>
      (another.mapE
        (fun w =>
          match compareFunc with
          | some c => c v w
          | none => .ok (jsStrictEq v w)) fid).map
        (fun r => r.getOrElse false)
  | none => .ok another.isEmpty

/-- One step of a method chain on JS-valued Optionals, for stating that the
shared `empty` constant absorbs every finite chain of `map`, `chain` and
`filter` applications. Each step carries its callback and, where the source
operation can allocate, the fresh id it would use. -/
inductive ChainStep where
  | mapS (func : JSVal → JSVal) (fid : Nat)
  | chainS (func : JSVal → OptObj JSVal)
  | filterS (func : JSVal → Bool) (fid : Nat)

/-- Run one `ChainStep` on a state carrying the current Optional, the values
all callbacks so far were invoked on, and the ids allocated so far. -/
def runChainStep (st : OptObj JSVal × List JSVal × List Nat) (s : ChainStep) :
    OptObj JSVal × List JSVal × List Nat :=
  match s with
  | .mapS func fid =>
      let r := st.1.mapT func fid
      (r.1, st.2.1 ++ r.2.1, st.2.2 ++ r.2.2)
  | .chainS func =>
      let r := st.1.chainT func
      (r.1, st.2.1 ++ r.2.1, st.2.2 ++ r.2.2)
  | .filterS func fid =>
      let r := st.1.filterT func fid
      (r.1, st.2.1 ++ r.2.1, st.2.2 ++ r.2.2)

/-- The record entry a mapping entry contributes when its Optional is
Present: the key paired with the unwrapped value (the default is irrelevant,
it is only read under a Present hypothesis). -/
def unwrapEntry (p : String × OptObj JSVal) : String × JSVal :=
  (p.1, p.2.data.getD .jundef)

/-- The unwrapped entries of the longest all-Present leading segment of the
mapping: exactly the fields assigned onto the shared record before the first
Absent field stops the fold. -/
def leadingPresent : List (String × OptObj JSVal) → List (String × JSVal)
  | [] => []
  | (k, o) :: rest =>
      match o.data with
      | some v => (k, v) :: leadingPresent rest
      | none => []

theorem jsStrictEq_null_iff (v : JSVal) : jsStrictEq v .jnull = true ↔ v = .jnull := by
  cases v <;> simp [jsStrictEq]

theorem jsStrictEq_undef_iff (v : JSVal) : jsStrictEq v .jundef = true ↔ v = .jundef := by
  cases v <;> simp [jsStrictEq]

/-- C9: group applied to a mapping with no keys returns a Present Optional
whose payload is the empty record, not Absent. -/
theorem c9_group_empty_mapping : (group []).acc = some ([] : List (String × JSVal)) :=
  rfl

/-- C5: fromNullable returns the shared empty Optional exactly when the input
is the null sentinel or the undefined sentinel, and otherwise returns a
Present Optional of the value; in particular the falsy-but-non-null values 0
and the empty string yield Present Optionals. -/
theorem c5_fromNullable_spec (v : JSVal) (fid : Nat) :
    (fromNullable v fid = emptyOpt ↔ (v = .jnull ∨ v = .jundef))
    ∧ (v ≠ .jnull → v ≠ .jundef → fromNullable v fid = someOpt fid v)
    ∧ (fromNullable (.jnum 0) fid).isPresent = true
    ∧ (fromNullable (.jstr "") fid).isPresent = true := by
  refine ⟨?_, ?_, rfl, rfl⟩
  · unfold fromNullable
    by_cases h1 : v = .jnull
    · simp [h1, jsStrictEq]
    · by_cases h2 : v = .jundef
      · simp [h2, jsStrictEq]
      · have e1 : jsStrictEq v .jnull = false := by
          cases hb : jsStrictEq v .jnull
          · rfl
          · exact absurd ((jsStrictEq_null_iff v).mp hb) h1
        have e2 : jsStrictEq v .jundef = false := by
          cases hb : jsStrictEq v .jundef
          · rfl
          · exact absurd ((jsStrictEq_undef_iff v).mp hb) h2
        simp [e1, e2, someOpt, emptyOpt, h1, h2]
  · intro h1 h2
    have e1 : jsStrictEq v .jnull = false := by
      cases hb : jsStrictEq v .jnull
      · rfl
      · exact absurd ((jsStrictEq_null_iff v).mp hb) h1
    have e2 : jsStrictEq v .jundef = false := by
      cases hb : jsStrictEq v .jundef
      · rfl
      · exact absurd ((jsStrictEq_undef_iff v).mp hb) h2
    simp [fromNullable, e1, e2]

/-- Witness for C5 at the concrete input 7. -/
theorem c5_fromNullable_witness :
    fromNullable (.jnum 7) 3 = someOpt 3 (.jnum 7) :=
  (c5_fromNullable_spec (.jnum 7) 3).2.1 (by decide) (by decide)

/-- C7: filter on a Present instance returns the very same instance when the
predicate accepts the value and a freshly allocated Absent instance when it
rejects it (predicate invoked exactly on the value); filter on an Absent
instance returns that same instance and never invokes the predicate. -/
theorem c7_filter_spec (i fid : Nat) (v : α) (p : α → Bool) :
    (p v = true → (someOpt i v).filterT p fid = (someOpt i v, [v], []))
    ∧ (p v = false → (someOpt i v).filterT p fid = (⟨fid, none⟩, [v], [fid]))
    ∧ (∀ o : OptObj α, o.data = none → o.filterT p fid = (o, [], [])) := by
  refine ⟨?_, ?_, ?_⟩
  · intro h; simp [someOpt, OptObj.filterT, h]
  · intro h; simp [someOpt, OptObj.filterT, h]
  · intro o h; simp [OptObj.filterT, h]

/-- Witness for C7 at concrete inputs. -/
theorem c7_filter_witness :
    (someOpt 1 (5 : Int)).filterT (fun v => decide (0 < v)) 2 = (someOpt 1 5, [5], [])
    ∧ (someOpt 1 (-3 : Int)).filterT (fun v => decide (0 < v)) 2
        = ((⟨2, none⟩ : OptObj Int), [-3], [2])
    ∧ (emptyOpt : OptObj Int).filterT (fun v => decide (0 < v)) 2 = (emptyOpt, [], []) :=
  ⟨(c7_filter_spec 1 2 5 _).1 (by decide),
   (c7_filter_spec 1 2 (-3) _).2.1 (by decide),
   (c7_filter_spec 1 2 0 _).2.2 emptyOpt rfl⟩

/-- C8: backUp on a Present receiver returns the receiver itself (its
extraction yields the receiver's value, and the result does not depend on the
argument at all); backUp on an Absent receiver returns the supplied
alternative unchanged, whose extraction yields the alternative's value. -/
theorem c8_backUp_spec (i j : Nat) (A B : α) :
    (someOpt i A).backUp (someOpt j B) = someOpt i A
    ∧ ((someOpt i A).backUp (someOpt j B)).getOrNull = some A
    ∧ (∀ b c : OptObj α, (someOpt i A).backUp b = (someOpt i A).backUp c)
    ∧ (∀ o : OptObj α, o.data = none → o.backUp (someOpt j B) = someOpt j B)
    ∧ ((emptyOpt : OptObj α).backUp (someOpt j B)).getOrNull = some B := by
  refine ⟨rfl, rfl, fun b c => rfl, ?_, rfl⟩
  intro o h
  simp [OptObj.backUp, h]

/-- Witness for C8 at concrete inputs. -/
theorem c8_backUp_witness :
    (someOpt 0 (5 : Int)).backUp (someOpt 1 7) = someOpt 0 5
    ∧ (emptyOpt : OptObj Int).backUp (someOpt 1 7) = someOpt 1 7 :=
  ⟨(c8_backUp_spec 0 1 (5 : Int) 7).1,
   (c8_backUp_spec 0 1 (5 : Int) 7).2.2.2.1 emptyOpt rfl⟩

theorem runChainStep_emptyOpt (l : List JSVal) (a : List Nat) (s : ChainStep) :
    runChainStep (emptyOpt, l, a) s = (emptyOpt, l, a) := by
  cases s <;> simp [runChainStep, OptObj.mapT, OptObj.chainT, OptObj.filterT, emptyOpt]

theorem foldl_runChainStep_emptyOpt (steps : List ChainStep) (l : List JSVal)
    (a : List Nat) : steps.foldl runChainStep (emptyOpt, l, a) = (emptyOpt, l, a) := by
  induction steps generalizing l a with
  | nil => rfl
  | cons s rest ih => rw [List.foldl_cons, runChainStep_emptyOpt]; exact ih l a

/-- C10: on an Absent instance, map, chain and filter each return the receiver
itself with no callback invocation and no allocation; consequently every
finite chain of map, chain and filter applications starting from the shared
empty constant returns that same constant, invoking no callback and
allocating no new Optional. -/
theorem c10_empty_absorbing :
    (∀ (o : OptObj JSVal) (f : JSVal → JSVal) (g : JSVal → OptObj JSVal)
        (p : JSVal → Bool) (fid : Nat), o.data = none →
      o.mapT f fid = (o, [], []) ∧ o.chainT g = (o, [], [])
        ∧ o.filterT p fid = (o, [], []))
    ∧ (∀ steps : List ChainStep,
        steps.foldl runChainStep (emptyOpt, [], []) = (emptyOpt, [], [])) := by
  constructor
  · intro o f g p fid h
    obtain ⟨oid, data⟩ := o
    cases h
    exact ⟨rfl, rfl, rfl⟩
  · intro steps
    exact foldl_runChainStep_emptyOpt steps [] []

/-- Witness for C10 at a concrete Absent receiver and a concrete chain. -/
theorem c10_empty_absorbing_witness :
    (emptyOpt : OptObj JSVal).mapT (fun v => v) 5 = (emptyOpt, [], [])
    ∧ List.foldl runChainStep (emptyOpt, [], [])
        [ChainStep.filterS (fun _ => false) 9, ChainStep.chainS (fun v => someOpt 3 v)]
      = (emptyOpt, [], []) :=
  ⟨(c10_empty_absorbing.1 emptyOpt (fun v => v) (fun _ => emptyOpt) (fun _ => true) 5 rfl).1,
   c10_empty_absorbing.2
     [ChainStep.filterS (fun _ => false) 9, ChainStep.chainS (fun v => someOpt 3 v)]⟩

/-- C3: isEqual on a Present receiver delegates to the other Optional's map
with the comparator (or default strict equality) and getOrElse false; on an
Absent receiver it is the other's isEmpty; under the default comparator,
Present objects with distinct references compare unequal, Present primitives
with equal values compare equal, and Absent equals Absent. -/
theorem c3_isEqual_spec (a b : OptObj JSVal)
    (cmp : Option (JSVal → JSVal → Bool)) (fid : Nat) :
    (∀ v, a.data = some v →
      a.isEqual b cmp fid =
        (b.map (fun w =>
          match cmp with
          | some c => c v w
          | none => jsStrictEq v w) fid).getOrElse false)
    ∧ (a.data = none → a.isEqual b cmp fid = b.isEmpty)
    ∧ (∀ (i j r1 r2 : Nat) (fl1 fl2 : List String) (c1 c2 : Bool), r1 ≠ r2 →
        (someOpt i (.jobj r1 fl1 c1)).isEqual (someOpt j (.jobj r2 fl2 c2)) none fid
          = false)
    ∧ (∀ (i j : Nat) (n : Int),
        (someOpt i (.jnum n)).isEqual (someOpt j (.jnum n)) none fid = true)
    ∧ (OptObj.isEqual emptyOpt emptyOpt cmp fid = true) := by
  refine ⟨?_, ?_, ?_, ?_, rfl⟩
  · intro v h; simp [OptObj.isEqual, h]
  · intro h; simp [OptObj.isEqual, h]
  · intro i j r1 r2 fl1 fl2 c1 c2 hne
    simp [OptObj.isEqual, someOpt, OptObj.map, OptObj.mapT, OptObj.getOrElse,
      jsStrictEq, hne]
  · intro i j n
    simp [OptObj.isEqual, someOpt, OptObj.map, OptObj.mapT, OptObj.getOrElse,
      jsStrictEq]

/-- Witness for C3 at concrete inputs: two Present objects with distinct
references are unequal, two Present numbers with the same value are equal. -/
theorem c3_isEqual_witness :
    (someOpt 0 (JSVal.jobj 1 [] false)).isEqual
        (someOpt 2 (JSVal.jobj 3 [] false)) none 9 = false
    ∧ (someOpt 0 (JSVal.jnum 5)).isEqual (someOpt 2 (JSVal.jnum 5)) none 9 = true :=
  ⟨(c3_isEqual_spec (someOpt 0 (JSVal.jobj 1 [] false))
      (someOpt 2 (JSVal.jobj 3 [] false)) none 9).2.2.1
      0 2 1 3 [] [] false false (by decide),
   (c3_isEqual_spec (someOpt 0 (JSVal.jnum 5))
      (someOpt 2 (JSVal.jnum 5)) none 9).2.2.2.1 0 2 5⟩

/-- C4 counterexample: a callable object (a JavaScript function) carrying all
twelve operation names as members is a non-null object exposing the full
operation set, yet instanceOfOptional rejects it, because `typeof` answers
"function" rather than "object" on it. -/
theorem c4_counterexample :
    instanceOfOptional (JSVal.jobj 7 optionalFields true) = false
    ∧ optionalFields.all
        (fun f => jsHasField (JSVal.jobj 7 optionalFields true) f) = true
    ∧ JSVal.jobj 7 optionalFields true ≠ JSVal.jnull
    ∧ jsTypeof (JSVal.jobj 7 optionalFields true) = "function" := by
  refine ⟨by decide, by decide, by decide, rfl⟩

/-- C4 amended: instanceOfOptional returns true exactly for the non-null,
non-callable objects (values whose `typeof` is "object") exposing all twelve
instance operations as members; it returns false for null, undefined, every
primitive, every function, and every object lacking at least one operation. -/
theorem c4_instanceOfOptional_amended (object : JSVal) :
    instanceOfOptional object = true ↔
      ∃ r fields, object = JSVal.jobj r fields false
        ∧ optionalFields.all (fun f => fields.contains f) = true := by
  cases object with
  | jobj r fields c =>
      cases c with
      | false =>
          simp [instanceOfOptional, jsTypeof, jsStrictEq, jsHasField]
          exact ⟨fun h => ⟨r, fields, ⟨rfl, rfl⟩, h⟩,
            by rintro ⟨r1, f1, ⟨rfl, rfl⟩, h⟩; exact h⟩
      | true => simp [instanceOfOptional, jsTypeof]
  | jnull => simp [instanceOfOptional, jsTypeof, jsStrictEq]
  | _ => simp [instanceOfOptional, jsTypeof]

theorem exceptMap_eq_error {γ δ : Type} (g : γ → δ) (x : Except ε γ) (e : ε) :
    x.map g = .error e ↔ x = .error e := by
  cases x <;> simp [Except.map]

/-- C6: the abstraction's operations are total and never fail of their own:
with callbacks modelled as possibly-throwing (`Except`), each operation's
result is an error exactly when the operation invokes a caller-supplied
callback and that callback throws, and the propagated error is the callback's
error unchanged.  Constructors and callback-free operations are embedded as
total functions and cannot fail at all. -/
theorem c6_no_own_exceptions (o a b : OptObj JSVal) (e : ε)
    (f : JSVal → Except ε JSVal) (g : JSVal → Except ε (OptObj JSVal))
    (p : JSVal → Except ε Bool) (consumer : JSVal → Except ε Unit)
    (absentFunc : Unit → Except ε Unit)
    (cmp : Option (JSVal → JSVal → Except ε Bool)) (fid : Nat) :
    (o.mapE f fid = .error e ↔ ∃ v, o.data = some v ∧ f v = .error e)
    ∧ (o.chainE g = .error e ↔ ∃ v, o.data = some v ∧ g v = .error e)
    ∧ (o.filterE p fid = .error e ↔ ∃ v, o.data = some v ∧ p v = .error e)
    ∧ (o.ifPresentE consumer = .error e ↔ ∃ v, o.data = some v ∧ consumer v = .error e)
    ∧ (o.ifAbsentE absentFunc = .error e ↔ o.data = none ∧ absentFunc () = .error e)
    ∧ (OptObj.isEqualE a b cmp fid = .error e ↔
        ∃ v w c, a.data = some v ∧ b.data = some w ∧ cmp = some c
          ∧ c v w = .error e) := by
  refine ⟨?_, ?_, ?_, ?_, ?_, ?_⟩
  · cases ho : o.data <;> simp [OptObj.mapE, ho, exceptMap_eq_error]
  · cases ho : o.data <;> simp [OptObj.chainE, ho]
  · cases ho : o.data <;> simp [OptObj.filterE, ho, exceptMap_eq_error]
  · cases ho : o.data <;> simp [OptObj.ifPresentE, ho]
  · cases ho : o.data <;> simp [OptObj.ifAbsentE, ho]
  · cases ha : a.data with
    | none => simp [OptObj.isEqualE, ha]
    | some v =>
        cases hb : b.data with
        | none => simp [OptObj.isEqualE, OptObj.mapE, ha, hb, Except.map]
        | some w =>
            cases cmp with
            | none => simp [OptObj.isEqualE, OptObj.mapE, ha, hb, Except.map]
            | some c =>
                simp [OptObj.isEqualE, OptObj.mapE, ha, hb, exceptMap_eq_error]

theorem foldl_groupStep_noneAcc (fields : List (String × OptObj JSVal))
    (l : List (String × JSVal)) : fields.foldl groupStep ⟨none, l⟩ = ⟨none, l⟩ := by
  induction fields with
  | nil => rfl
  | cons kv rest ih => rw [List.foldl_cons]; exact ih

theorem foldl_groupStep_present (fields : List (String × OptObj JSVal))
    (r0 l0 : List (String × JSVal)) (h : ∀ p ∈ fields, p.2.data ≠ none) :
    fields.foldl groupStep ⟨some r0, l0⟩ =
      ⟨some (fields.foldl (fun r p => setKey r p.1 (p.2.data.getD .jundef)) r0),
       l0 ++ fields.map unwrapEntry⟩ := by
  induction fields generalizing r0 l0 with
  | nil => simp
  | cons kv rest ih =>
      obtain ⟨v, hv⟩ :=
        Option.ne_none_iff_exists'.mp (h kv (List.mem_cons_self kv rest))
      rw [List.foldl_cons, List.foldl_cons]
      have step : groupStep ⟨some r0, l0⟩ kv
          = ⟨some (setKey r0 kv.1 v), l0 ++ [(kv.1, v)]⟩ := by
        simp [groupStep, hv]
      rw [step, ih _ _ (fun p hp => h p (List.mem_cons_of_mem kv hp))]
      simp [unwrapEntry, hv]

theorem foldl_groupStep_absent (fields : List (String × OptObj JSVal))
    (r0 l0 : List (String × JSVal)) (h : ∃ p ∈ fields, p.2.data = none) :
    (fields.foldl groupStep ⟨some r0, l0⟩).acc = none := by
  induction fields generalizing r0 l0 with
  | nil => obtain ⟨p, hp, _⟩ := h; cases hp
  | cons kv rest ih =>
      obtain ⟨p, hp, hnone⟩ := h
      rw [List.foldl_cons]
      cases hkv : kv.2.data with
      | none =>
          have step : groupStep ⟨some r0, l0⟩ kv = ⟨none, l0⟩ := by
            simp [groupStep, hkv]
          rw [step, foldl_groupStep_noneAcc]
      | some v =>
          have step : groupStep ⟨some r0, l0⟩ kv
              = ⟨some (setKey r0 kv.1 v), l0 ++ [(kv.1, v)]⟩ := by
            simp [groupStep, hkv]
          rw [step]
          apply ih
          rcases List.mem_cons.mp hp with h1 | h1
          · subst h1; simp [hkv] at hnone
          · exact ⟨p, h1, hnone⟩

theorem setKey_not_mem (r : List (String × JSVal)) (k : String) (v : JSVal)
    (h : k ∉ r.map Prod.fst) : setKey r k v = r ++ [(k, v)] := by
  induction r with
  | nil => rfl
  | cons p rest ih =>
      obtain ⟨k1, v1⟩ := p
      simp only [List.map_cons, List.mem_cons] at h
      push_neg at h
      simp only [setKey]
      rw [if_neg (fun hh => h.1 hh.symm), ih h.2]
      rfl

theorem foldl_setKey_fresh (fields : List (String × OptObj JSVal))
    (r0 : List (String × JSVal))
    (h1 : ∀ p ∈ fields, p.1 ∉ r0.map Prod.fst)
    (h2 : (fields.map Prod.fst).Nodup) :
    fields.foldl (fun r p => setKey r p.1 (p.2.data.getD .jundef)) r0
      = r0 ++ fields.map unwrapEntry := by
  induction fields generalizing r0 with
  | nil => simp
  | cons kv rest ih =>
      rw [List.foldl_cons]
      simp only [List.map_cons] at h2
      have hhead : kv.1 ∉ rest.map Prod.fst := (List.nodup_cons.mp h2).1
      have htail := (List.nodup_cons.mp h2).2
      rw [setKey_not_mem r0 kv.1 _ (h1 kv (List.mem_cons_self kv rest))]
      have h1x : ∀ p ∈ rest,
          p.1 ∉ (r0 ++ [(kv.1, kv.2.data.getD .jundef)]).map Prod.fst := by
        intro p hp
        simp only [List.map_append, List.mem_append, List.map_cons, List.map_nil,
          List.mem_singleton]
        rintro (hr | hs)
        · exact h1 p (List.mem_cons_of_mem kv hp) hr
        · exact hhead (hs ▸ List.mem_map_of_mem Prod.fst hp)
      rw [ih _ h1x htail]
      simp [unwrapEntry]

theorem lookup_map_unwrapEntry (fields : List (String × OptObj JSVal))
    (h2 : (fields.map Prod.fst).Nodup) (p : String × OptObj JSVal)
    (hp : p ∈ fields) :
    List.lookup p.1 (fields.map unwrapEntry) = some (p.2.data.getD .jundef) := by
  induction fields with
  | nil => cases hp
  | cons kv rest ih =>
      simp only [List.map_cons] at h2
      have hhead : kv.1 ∉ rest.map Prod.fst := (List.nodup_cons.mp h2).1
      have htail := (List.nodup_cons.mp h2).2
      rcases List.mem_cons.mp hp with h1 | h1
      · subst h1
        simp [List.lookup, unwrapEntry]
      · have hne : p.1 ≠ kv.1 := by
          intro hh
          exact hhead (hh ▸ List.mem_map_of_mem Prod.fst h1)
        rw [List.map_cons]
        have hb : (p.1 == kv.1) = false := beq_eq_false_iff_ne.mpr hne
        simp only [List.lookup, unwrapEntry, hb]
        exact ih htail h1

/-- C1: group returns Absent when some field's Optional is Absent; when every
field's Optional is Present it returns Present of the record whose entries are
exactly the mapping's keys, each bound to its Optional's unwrapped value. -/
theorem c1_group_spec (fields : List (String × OptObj JSVal))
    (hkeys : (fields.map Prod.fst).Nodup) :
    ((∃ p ∈ fields, p.2.data = none) → (group fields).acc = none)
    ∧ ((∀ p ∈ fields, p.2.data ≠ none) →
        (group fields).acc = some (fields.map unwrapEntry)
        ∧ (fields.map unwrapEntry).map Prod.fst = fields.map Prod.fst
        ∧ ∀ p ∈ fields, ∀ v, p.2.data = some v →
            List.lookup p.1 (fields.map unwrapEntry) = some v) := by
  constructor
  · intro h
    exact foldl_groupStep_absent fields [] [] h
  · intro h
    refine ⟨?_, ?_, ?_⟩
    · show (fields.foldl groupStep ⟨some [], []⟩).acc = _
      rw [foldl_groupStep_present fields [] [] h,
        foldl_setKey_fresh fields [] (by simp) hkeys]
      simp
    · rw [List.map_map]
      exact List.map_congr_left fun a _ => rfl
    · intro p hp v hv
      have hl := lookup_map_unwrapEntry fields hkeys p hp
      rw [hv] at hl
      exact hl

/-- Witness for C1 at a concrete two-field all-Present mapping. -/
theorem c1_group_witness :
    (group [("a", someOpt 1 (JSVal.jnum 1)), ("b", someOpt 2 (JSVal.jnum 2))]).acc
      = some [("a", JSVal.jnum 1), ("b", JSVal.jnum 2)] :=
  ((c1_group_spec _ (by decide)).2 (by decide)).1

/-- C2 counterexample: with the mapping `{a: some(1), b: empty}` the overall
result is Absent (the shared record is discarded), yet field `a` has already
been assigned onto that record — one assignment is logged — so a field was
assigned onto a record that is not returned. -/
theorem c2_counterexample :
    (group [("a", someOpt 1 (JSVal.jnum 1)), ("b", emptyOpt)]).acc = none
    ∧ (group [("a", someOpt 1 (JSVal.jnum 1)), ("b", emptyOpt)]).log
        = [("a", JSVal.jnum 1)]
    ∧ (group [("a", someOpt 1 (JSVal.jnum 1)), ("b", emptyOpt)]).log ≠ [] := by
  exact ⟨rfl, rfl, by decide⟩

theorem foldl_groupStep_log (fields : List (String × OptObj JSVal))
    (r0 l0 : List (String × JSVal)) :
    (fields.foldl groupStep ⟨some r0, l0⟩).log = l0 ++ leadingPresent fields := by
  induction fields generalizing r0 l0 with
  | nil => simp [leadingPresent]
  | cons kv rest ih =>
      obtain ⟨k, o⟩ := kv
      rw [List.foldl_cons]
      cases ho : o.data with
      | some v =>
          have step : groupStep ⟨some r0, l0⟩ (k, o)
              = ⟨some (setKey r0 k v), l0 ++ [(k, v)]⟩ := by
            simp [groupStep, ho]
          rw [step, ih]
          simp [leadingPresent, ho]
      | none =>
          have step : groupStep ⟨some r0, l0⟩ (k, o) = ⟨none, l0⟩ := by
            simp [groupStep, ho]
          rw [step, foldl_groupStep_noneAcc]
          simp [leadingPresent, ho]

/-- C2 amended: during group's fold, the fields assigned onto the shared
mutable record are exactly those of the longest all-Present leading segment of
the mapping — a field is assigned exactly when the accumulator is still
Present at its step; in particular, when a later field is Absent, the earlier
Present fields have already been assigned onto the record that is then
discarded. -/
theorem c2_group_assignments (fields : List (String × OptObj JSVal)) :
    (group fields).log = leadingPresent fields :=
  foldl_groupStep_log fields [] []

end OptionalNeo
